import Mathlib

/-!
Verification of the nested-list Prolog interpreter (`prolog_interpreter.py`).

Shallow embedding notes:

* Python values flowing through the interpreter are strings, integers and
  (nested) lists.  We model them with the inductive `Term`; a Python list
  `[a, b, c]` is encoded as the proper chain
  `Term.cons a (Term.cons b (Term.cons c Term.nil))`.  Every list built by
  the source program is such a proper chain, and all list primitives
  (`len`, indexing, element iteration) are translated chain-wise.
* The binding dictionary is modelled as an association list keyed by the
  variable-name term, with Python `dict` semantics for lookup (`blookup`)
  and assignment (`bset`: overwrite in place, otherwise append).
* `copy.deepcopy` on a binding dictionary is the identity on values in
  this model (value semantics).
* Python's `unify` mutates the dictionary it is handed even on a failing
  run; we model that by returning the post-call state of the dictionary
  together with the success flag: `some (b', ok)`.  The outer `Option` is
  fuel exhaustion: `unify` can chase cyclic variable chains forever
  (there is no occurs-check), so it is given explicit fuel, as are the
  chain resolver and the solver (rules may recurse without bound).
* `rename_variables` draws a random suffix per call.  We model the random
  stream by an oracle `sf : Nat → String` together with a draw counter
  threaded through the solver in call order: the k-th draw is `sf k`.
  Note that the source renames a rule's head and body in two separate
  calls, so they receive two distinct draws.
* `writeln`'s printing side effect is dropped; only its solution sequence
  is modelled.  The debug `print` calls of `only_ssi_test` are likewise
  ignored.
* Inputs on which the Python source raises an uncaught `TypeError` or
  `IndexError` (e.g. numeric clauses handed to `len`, or a malformed
  query) are mapped to `none` or to an empty solution list; these corners
  are marked in comments and are not relied on by any theorem.
-/

inductive Term where
  | str : String → Term
  | num : Int → Term
  | nil : Term
  | cons : Term → Term → Term
deriving DecidableEq

/-- `is_variable`: a Python list of length 2 whose first element is the
string `'v'` (`[v, name]`). -/
def is_variable : Term → Bool
  | .cons (.str "v") (.cons _ .nil) => true
  | _ => false

/-- `is_atom`: not a Python list. -/
def is_atom : Term → Bool
  | .str _ => true
  | .num _ => true
  | _ => false

/-- `isinstance(term, list)`. -/
def isList : Term → Bool
  | .nil => true
  | .cons _ _ => true
  | _ => false

/-- `get_variable_name`: the second element of `[v, name]`, otherwise
`None`. -/
def get_variable_name : Term → Option Term
  | .cons (.str "v") (.cons nm .nil) => some nm
  | _ => none

/-- Python `len` on an (encoded) list. -/
def tlen : Term → Nat
  | .cons _ tl => tlen tl + 1
  | _ => 0

/-- Node count of a term, used as a fuel measure. -/
def tsize : Term → Nat
  | .cons h tl => tsize h + tsize tl + 1
  | _ => 1

/-- Build the encoding of a Python list from a Lean list. -/
def chainOf : List Term → Term
  | [] => .nil
  | t :: ts => .cons t (chainOf ts)

/-- Prepend a reversed Lean list onto an encoded list: the tail-recursive
chain builder used where the source appends to a (possibly long) result
list in a loop. -/
def chainOnto : List Term → Term → Term
  | [], acc => acc
  | t :: ts, acc => chainOnto ts (.cons t acc)

/-- The binding dictionary: variable-name term ↦ bound term. -/
abbrev Bindings := List (Term × Term)

/-- Python `name in bindings` / `bindings[name]` (first match wins, as
for a dict). -/
def blookup : Bindings → Term → Option Term
  | [], _ => none
  | (k, v) :: rest, nm => if nm = k then some v else blookup rest nm

/-- Python `bindings[name] = value`: overwrite the existing entry or
append a new one. -/
def bset : Bindings → Term → Term → Bindings
  | [], nm, v => [(nm, v)]
  | (k, w) :: rest, nm, v =>
    if nm = k then (k, v) :: rest else (k, w) :: bset rest nm v

/-- `unify`, fuel-indexed.  The flag distinguishes the two modes of the
source: `true` is the full `unify(term1, term2, bindings)` entry point;
`false` is the element-wise loop over two equal-length lists (Python
iterates the elements of the lists; the loop never re-examines a list
tail as a term of its own, which is why the mode matters for the
encoding).  The result is `none` on fuel exhaustion (the source would
recurse forever on a cyclic chain), otherwise `some (b', ok)` where `b'`
is the state of the (mutated) dictionary after the call and `ok` tells
success (`ok = false` corresponds to Python returning `None`). -/
def unifyA : Nat → Bool → Term → Term → Bindings → Option (Bindings × Bool)
  | 0, _, _, _, _ => none
  | fuel+1, true, t1, t2, b =>
    if is_variable t1 then
      -- term1 is a variable: dereference if bound, else bind it to term2
      match get_variable_name t1 with
      | some nm =>
        match blookup b nm with
        | some v => unifyA fuel true v t2 b
        | none => some (bset b nm t2, true)
      | none => some (b, false)  -- unreachable: is_variable guarantees a name
    else if is_variable t2 then
      match get_variable_name t2 with
      | some nm =>
        match blookup b nm with
        | some v => unifyA fuel true t1 v b
        | none => some (bset b nm t1, true)
      | none => some (b, false)  -- unreachable
    else if is_atom t1 && is_atom t2 then
      some (b, decide (t1 = t2))
    else if isList t1 && isList t2 then
      if tlen t1 = tlen t2 then unifyA fuel false t1 t2 b
      else some (b, false)
    else
      -- mismatched shapes (atom vs list)
      some (b, false)
  | fuel+1, false, t1, t2, b =>
    match t1, t2 with
    | .nil, _ => some (b, true)
    | .cons h1 tl1, .cons h2 tl2 =>
      match unifyA fuel true h1 h2 b with
      | none => none
      | some (b', true) => unifyA fuel false tl1 tl2 b'
      | some (b', false) => some (b', false)
    | _, _ => some (b, false)  -- unreachable: callers ensure equal lengths
termination_by structural fuel _ _ _ _ => fuel

/-- `unify(term1, term2, bindings)`. -/
def unify (fuel : Nat) (t1 t2 : Term) (b : Bindings) : Option (Bindings × Bool) :=
  unifyA fuel true t1 t2 b

/-- `substitute_variables`, flag-indexed like `unifyA`: `true` is a term
(element) position where the variable shape is recognised, `false`
continues mapping over the elements of a list.  The lookup is shallow:
a bound variable is replaced by its binding verbatim, with no further
substitution inside the replacement. -/
def substA (b : Bindings) : Bool → Term → Term
  | true, t =>
    if is_variable t then
      match get_variable_name t with
      | some nm =>
        match blookup b nm with
        | some v => v
        | none => t
      | none => t  -- unreachable: is_variable guarantees a name
    else
      match t with
      | .cons h tl => .cons (substA b true h) (substA b false tl)
      | t => t
  | false, .cons h tl => .cons (substA b true h) (substA b false tl)
  | false, t => t

/-- `substitute_variables(term, bindings)`. -/
def substitute_variables (t : Term) (b : Bindings) : Term :=
  substA b true t

/-- `rename_variables` with an explicit suffix: every variable reference
`[v, name]` becomes `[term[0], name + "_" + suffix]`.  A non-string
variable name makes the source raise `TypeError` on the concatenation;
such a reference is left unchanged here (never exercised). -/
def renameA (sfx : String) : Bool → Term → Term
  | true, t =>
    if is_variable t then
      match t with
      | .cons t0 (.cons (.str nm) .nil) =>
        .cons t0 (.cons (.str (nm ++ "_" ++ sfx)) .nil)
      | t => t  -- non-string variable name: Python raises TypeError here
    else
      match t with
      | .cons h tl => .cons (renameA sfx true h) (renameA sfx false tl)
      | t => t
  | false, .cons h tl => .cons (renameA sfx true h) (renameA sfx false tl)
  | false, t => t

/-- `rename_variables(term, suffix)`. -/
def rename_variables (sfx : String) (t : Term) : Term :=
  renameA sfx true t

/-- `resolve_variable_chains`, fuel-indexed with the same element/tail
flag.  A bound variable is dereferenced repeatedly (the fuel guards
against cyclic chains, on which the source recurses forever); list
elements are resolved recursively. -/
def rvcA : Nat → Bool → Bindings → Term → Option Term
  | 0, _, _, _ => none
  | fuel+1, true, b, t =>
    if is_variable t then
      match get_variable_name t with
      | some nm =>
        match blookup b nm with
        | some v => rvcA fuel true b v
        | none => some t
      | none => some t  -- unreachable: is_variable guarantees a name
    else
      match t with
      | .cons h tl =>
        match rvcA fuel true b h, rvcA fuel false b tl with
        | some h', some tl' => some (.cons h' tl')
        | _, _ => none
      | t => some t
  | fuel+1, false, b, t =>
    match t with
    | .cons h tl =>
      match rvcA fuel true b h, rvcA fuel false b tl with
      | some h', some tl' => some (.cons h' tl')
      | _, _ => none
    | t => some t
termination_by structural fuel _ _ _ => fuel

/-- `resolve_variable_chains(term, bindings)`. -/
def resolve_variable_chains (fuel : Nat) (t : Term) (b : Bindings) : Option Term :=
  rvcA fuel true b t

/-- A rule `head :- body` as stored by `parse_knowledge_base`. -/
structure Rule where
  head : Term
  body : Term
deriving DecidableEq

/-- Element `i` of an encoded list (`item[i]`). -/
def tnth : Term → Nat → Option Term
  | .cons h _, 0 => some h
  | .cons _ tl, n+1 => tnth tl n
  | _, _ => none

/-- `item[:2]` of an encoded list with at least two elements. -/
def take2 : Term → Term
  | .cons a (.cons b _) => .cons a (.cons b .nil)
  | t => t

/-- `parse_knowledge_base(kb)`: clauses whose element 2 is the atom
`":-"` become rules (head = first two elements, body = element 3 or the
empty list); every other clause — including malformed ones — is a fact.
(A string clause is a fact in the source too, since a single character
never equals `":-"`; a numeric clause would raise `TypeError` in Python
and is classified as a fact here, never exercised.) -/
def parse_knowledge_base : List Term → List Term × List Rule
  | [] => ([], [])
  | item :: rest =>
    let (fs, rs) := parse_knowledge_base rest
    match tnth item 2 with
    | some (.str ":-") =>
      (fs, { head := take2 item,
             body := match tnth item 3 with
                     | some bd => bd
                     | none => Term.nil } :: rs)
    | _ => (item :: fs, rs)

/-- Python truthiness of the values reachable in this program
(`not body` is true for `[]`, `""` and `0`). -/
def falsy : Term → Bool
  | .nil => true
  | .str "" => true
  | .num 0 => true
  | _ => false

/-- `is_builtin_predicate(goal)`: a list of length ≥ 2 whose first
element is a two-element list `[n, name]` with `name` one of the six
strings below (note that `'<'` is in this list even though
`solve_builtin` has no handler for it). -/
def is_builtin_predicate : Term → Bool
  | .cons (.cons (.str "n") (.cons (.str nm) .nil)) (.cons _ _) =>
    (["findall", "not", "=", ">", "<", "writeln"] : List String).contains nm
  | _ => false

/-- `solve_equals(args, bindings)`: unify the two arguments against a
(deep-copied) binding set; 0 or 1 solutions.  `none` is fuel
exhaustion. -/
def solve_equals (fuel : Nat) (args : Term) (b : Bindings) : Option (List Bindings) :=
  match args with
  | .cons a1 (.cons a2 .nil) =>
    match unify fuel a1 a2 b with
    | none => none
    | some (b', true) => some [b']
    | some (_, false) => some []
  | _ => some []  -- len(args) != 2 (an atom here would raise in Python)

/-- `solve_greater(args, bindings)`: shallow-substitute both arguments;
one solution (the unchanged bindings) iff both are numeric and
left > right, else no solution.  Total: a type mismatch is a failure,
not an error. -/
def solve_greater (args : Term) (b : Bindings) : List Bindings :=
  match args with
  | .cons a1 (.cons a2 .nil) =>
    match substitute_variables a1 b, substitute_variables a2 b with
    | .num l, .num r => if l > r then [b] else []
    | _, _ => []
  | _ => []

/-- `solve_writeln(args, bindings)`: prints the substituted argument
(side effect not modelled) and succeeds with the unchanged bindings. -/
def solve_writeln (args : Term) (b : Bindings) : List Bindings :=
  match args with
  | .cons _ .nil => [b]
  | _ => []

/-- The pending call of the mutually recursive resolution engine, used
to give the whole engine a single fuel-structural definition. -/
inductive Req where
  | goal (g : Term) (b : Bindings)
  | body (gs : Term) (b : Bindings)
  | builtin (g : Term) (b : Bindings)
  | findall (args : Term) (b : Bindings)
  | notGoal (args : Term) (b : Bindings)

/-- The fact loop of `solve_goal`: each fact is unified against the goal
starting from a deep copy of the incoming bindings; every success is
appended to the `solutions` accumulator, in declaration order.  `none`
propagates fuel exhaustion of `unify`. -/
def factLoop (ufuel : Nat) (g : Term) (b : Bindings) :
    List Term → List Bindings → Option (List Bindings)
  | [], racc => some racc
  | f :: fs, racc =>
    match unify ufuel g f b with
    | none => none
    | some (b', ok) =>
      factLoop ufuel g b fs (if ok then b' :: racc else racc)

/-- The rule loop of `solve_goal`, continuing to append to the same
`solutions` accumulator (kept in reverse while looping — a Python
`extend` is a `reverseAux` prepend — and reversed once on exit).  For each rule, head and body are renamed in
two separate calls (hence with two distinct suffix draws, `sf cnt` and
`sf (cnt+1)`); the goal is unified against the renamed head starting
from a deep copy of the incoming bindings, and on success the renamed
body is solved from the unified bindings.  `recur` is the engine one
fuel level down. -/
def rulesLoopF (recur : Req → Nat → Option (List Bindings × Nat)) (ufuel : Nat)
    (sf : Nat → String) (g : Term) (b : Bindings) :
    List Rule → Nat → List Bindings → Option (List Bindings × Nat)
  | [], cnt, racc => some (racc.reverse, cnt)
  | r :: rs, cnt, racc =>
    let rule_head := rename_variables (sf cnt) r.head
    let rule_body := rename_variables (sf (cnt+1)) r.body
    match unify ufuel g rule_head b with
    | none => none
    | some (b', true) =>
      match recur (.body rule_body b') (cnt+2) with
      | none => none
      | some (body_solutions, cnt2) =>
        rulesLoopF recur ufuel sf g b rs cnt2 (List.reverseAux body_solutions racc)
    | some (_, false) => rulesLoopF recur ufuel sf g b rs (cnt+2) racc

/-- The per-solution loop of `solve_body`: for each solution of the
first goal, either solve the remaining goals from it (appending all
their solutions) or, if no goals remain, append it directly.  The
accumulator is kept in reverse while looping and reversed on exit. -/
def seqLoopF (recur : Req → Nat → Option (List Bindings × Nat)) (rest : Term) :
    List Bindings → Nat → List Bindings → Option (List Bindings × Nat)
  | [], cnt, racc => some (racc.reverse, cnt)
  | s :: ss, cnt, racc =>
    match rest with
    | .nil => seqLoopF recur rest ss cnt (s :: racc)
    | _ =>
      match recur (.body rest s) cnt with
      | none => none
      | some (rsols, cnt') =>
        seqLoopF recur rest ss cnt' (List.reverseAux rsols racc)

/-- The resolution engine: `solve_goal`, `solve_body`, `solve_builtin`,
`solve_findall` and `solve_not` of the source, as one fuel-structural
function over pending calls.  The second `Nat` is the suffix-draw
counter; the result is the solution sequence together with the counter
after the call, or `none` on fuel exhaustion. -/
def run (facts : List Term) (rules : List Rule) (sf : Nat → String) :
    Nat → Req → Nat → Option (List Bindings × Nat)
  | 0, _, _ => none
  | fuel+1, .goal g b, cnt =>
    -- solve_goal: all fact solutions, then all rule solutions, appended
    -- to one `solutions` list
    match factLoop (fuel+1) g b facts [] with
    | none => none
    | some rfsols =>
      rulesLoopF (run facts rules sf fuel) (fuel+1) sf g b rules cnt rfsols
  | fuel+1, .body gs b, cnt =>
    -- solve_body: empty (falsy) conjunction succeeds with [bindings]
    if falsy gs then some ([b], cnt)
    else
      match gs with
      | .cons g1 rest =>
        match (if is_builtin_predicate g1 then run facts rules sf fuel (.builtin g1 b) cnt
               else run facts rules sf fuel (.goal g1 b) cnt) with
        | none => none
        | some (sols, cnt') => seqLoopF (run facts rules sf fuel) rest sols cnt' []
      | _ => some ([], cnt)  -- truthy non-list body
  | fuel+1, .builtin g b, cnt =>
    -- solve_builtin: dispatch on goal[0][1]
    match g with
    | .cons (.cons (.str "n") (.cons pn _)) (.cons g1 _) =>
      if pn = Term.str "findall" then run facts rules sf fuel (.findall g1 b) cnt
      else if pn = Term.str "=" then
        match solve_equals (fuel+1) g1 b with
        | none => none
        | some sols => some (sols, cnt)
      else if pn = Term.str ">" then some (solve_greater g1 b, cnt)
      else if pn = Term.str "not" then run facts rules sf fuel (.notGoal g1 b) cnt
      else if pn = Term.str "writeln" then some (solve_writeln g1 b, cnt)
      else some ([], cnt)  -- in particular '<' falls through to the final return []
    | _ => some ([], cnt)
  | fuel+1, .findall args b, cnt =>
    -- solve_findall(args = [template, goal_list, result_var], bindings)
    match args with
    | .cons template (.cons goal_list (.cons result_var .nil)) =>
      if isList goal_list then
        match run facts rules sf fuel (.body goal_list b) cnt with
        | none => none
        | some (gsols, cnt') =>
          -- results = []; for solution in goal_solutions: results.append(
          --   substitute_variables(template, solution))   (tail-recursively)
          let results := chainOnto
            (gsols.foldl (fun acc s => substitute_variables template s :: acc) []) .nil
          match get_variable_name result_var with
          | some nm => some ([bset b nm results], cnt')
          | none =>
            match unify (fuel+1) result_var results b with
            | none => none
            | some (b', true) => some ([b'], cnt')
            | some (_, false) => some ([], cnt')
      else some ([], cnt)
    | _ => some ([], cnt)  -- len(args) != 3
  | fuel+1, .notGoal args b, cnt =>
    -- solve_not(args = [goal], bindings): negation as failure via solve_goal
    match args with
    | .cons g .nil =>
      match run facts rules sf fuel (.goal g b) cnt with
      | none => none
      | some (sols, cnt') => some (if sols.isEmpty then [b] else [], cnt')
    | _ => some ([], cnt)  -- len(args) != 1

/-- `solve_goal(goal, bindings)` at a given fuel and draw counter. -/
def solve_goal (facts : List Term) (rules : List Rule) (sf : Nat → String)
    (fuel : Nat) (g : Term) (b : Bindings) (cnt : Nat) : Option (List Bindings × Nat) :=
  run facts rules sf fuel (.goal g b) cnt

/-- `solve_body(body, bindings)` at a given fuel and draw counter. -/
def solve_body (facts : List Term) (rules : List Rule) (sf : Nat → String)
    (fuel : Nat) (gs : Term) (b : Bindings) (cnt : Nat) : Option (List Bindings × Nat) :=
  run facts rules sf fuel (.body gs b) cnt

/-- `solve_builtin(goal, bindings)` at a given fuel and draw counter. -/
def solve_builtin (facts : List Term) (rules : List Rule) (sf : Nat → String)
    (fuel : Nat) (g : Term) (b : Bindings) (cnt : Nat) : Option (List Bindings × Nat) :=
  run facts rules sf fuel (.builtin g b) cnt

/-- `solve_findall(args, bindings)` at a given fuel and draw counter. -/
def solve_findall (facts : List Term) (rules : List Rule) (sf : Nat → String)
    (fuel : Nat) (args : Term) (b : Bindings) (cnt : Nat) : Option (List Bindings × Nat) :=
  run facts rules sf fuel (.findall args b) cnt

/-- `solve_not(args, bindings)` at a given fuel and draw counter. -/
def solve_not (facts : List Term) (rules : List Rule) (sf : Nat → String)
    (fuel : Nat) (args : Term) (b : Bindings) (cnt : Nat) : Option (List Bindings × Nat) :=
  run facts rules sf fuel (.notGoal args b) cnt

/-- `only_ssi_test(depth, query, kb)`: parse the knowledge base, build
the goal `[query[0], query[1]]`, solve it from empty bindings, and
ground the requested variable of the FIRST solution (an empty list when
there is no solution or the variable is unbound).  Debug printing is
dropped; a query malformed enough to raise in Python yields `none`. -/
def only_ssi_test (sf : Nat → String) (fuel : Nat) (depth : Int)
    (query : Term) (kb : List Term) : Option Term :=
  let (facts, rules) := parse_knowledge_base kb
  match query with
  | .cons predicate_info (.cons variable_info _) =>
    let goal := Term.cons predicate_info (.cons variable_info .nil)
    match run facts rules sf fuel (.goal goal []) 0 with
    | none => none
    | some (sols, _) =>
      match variable_info with
      | .cons v0 _ =>
        match sols with
        | [] => some (.cons (.cons v0 (.cons .nil .nil)) .nil)
        | s0 :: _ =>
          match v0 with
          | .cons _ (.cons nm _) =>
            match blookup s0 nm with
            | some raw =>
              match rvcA fuel true s0 raw with
              | none => none
              | some r => some (.cons (.cons v0 (.cons r .nil)) .nil)
            | none => some (.cons (.cons v0 (.cons .nil .nil)) .nil)
          | _ => none  -- variable_info[0][1] would raise in Python
      | _ => none  -- variable_info[0] would raise in Python
  | _ => none  -- query[0] / query[1] would raise in Python

/-- Shorthand for the predicate tag `[n, name]`. -/
def nTag (s : String) : Term := .cons (.str "n") (.cons (.str s) .nil)

/-- Shorthand for the variable reference `[v, name]`. -/
def vTag (s : String) : Term := .cons (.str "v") (.cons (.str s) .nil)

/-- The query of `main`: `[[n, older_brother], [[v, result6]]]`. -/
def mainQuery : Term := chainOf [nTag "older_brother", chainOf [vTag "result6"]]

/-- The family-tree knowledge base of `main`, clause for clause in
declaration order. -/
def mainKB : List Term :=
  [ chainOf [nTag "parent", chainOf [.str "albert", .str "jim"]],
    chainOf [nTag "parent", chainOf [.str "albert", .str "peter"]],
    chainOf [nTag "parent", chainOf [.str "jim", .str "brian"]],
    chainOf [nTag "parent", chainOf [.str "john", .str "darren"]],
    chainOf [nTag "parent", chainOf [.str "peter", .str "lee"]],
    chainOf [nTag "parent", chainOf [.str "peter", .str "sandra"]],
    chainOf [nTag "parent", chainOf [.str "peter", .str "james"]],
    chainOf [nTag "parent", chainOf [.str "peter", .str "kate"]],
    chainOf [nTag "parent", chainOf [.str "peter", .str "kyle"]],
    chainOf [nTag "parent", chainOf [.str "brian", .str "jenny"]],
    chainOf [nTag "parent", chainOf [.str "irene", .str "jim"]],
    chainOf [nTag "parent", chainOf [.str "irene", .str "peter"]],
    chainOf [nTag "parent", chainOf [.str "pat", .str "brian"]],
    chainOf [nTag "parent", chainOf [.str "pat", .str "darren"]],
    chainOf [nTag "parent", chainOf [.str "amanda", .str "jenny"]],
    chainOf [nTag "older_brother", chainOf [vTag "c"], .str ":-",
      chainOf [ chainOf [nTag "findall",
        chainOf [ chainOf [vTag "a", vTag "b"],
                  chainOf [ chainOf [nTag "siblings", chainOf [vTag "a", vTag "b"]],
                            chainOf [nTag "male", chainOf [vTag "a"]],
                            chainOf [nTag "older", chainOf [vTag "a", vTag "b"]] ],
                  vTag "c" ] ] ] ],
    chainOf [nTag "siblings", chainOf [vTag "a", vTag "b"], .str ":-",
      chainOf [ chainOf [nTag "parent", chainOf [vTag "x", vTag "a"]],
                chainOf [nTag "parent", chainOf [vTag "x", vTag "b"]],
                chainOf [nTag "not", chainOf [chainOf [nTag "=", chainOf [vTag "a", vTag "b"]]]] ] ],
    chainOf [nTag "male", chainOf [.str "albert"]],
    chainOf [nTag "male", chainOf [.str "jim"]],
    chainOf [nTag "male", chainOf [.str "peter"]],
    chainOf [nTag "male", chainOf [.str "brian"]],
    chainOf [nTag "male", chainOf [.str "john"]],
    chainOf [nTag "male", chainOf [.str "darren"]],
    chainOf [nTag "male", chainOf [.str "james"]],
    chainOf [nTag "male", chainOf [.str "kyle"]],
    chainOf [nTag "yearofbirth", chainOf [.str "irene", .num 1923]],
    chainOf [nTag "yearofbirth", chainOf [.str "pat", .num 1954]],
    chainOf [nTag "yearofbirth", chainOf [.str "lee", .num 1970]],
    chainOf [nTag "yearofbirth", chainOf [.str "sandra", .num 1973]],
    chainOf [nTag "yearofbirth", chainOf [.str "jenny", .num 2004]],
    chainOf [nTag "yearofbirth", chainOf [.str "amanda", .num 1979]],
    chainOf [nTag "yearofbirth", chainOf [.str "albert", .num 1926]],
    chainOf [nTag "yearofbirth", chainOf [.str "jim", .num 1949]],
    chainOf [nTag "yearofbirth", chainOf [.str "peter", .num 1945]],
    chainOf [nTag "yearofbirth", chainOf [.str "brian", .num 1974]],
    chainOf [nTag "yearofbirth", chainOf [.str "john", .num 1955]],
    chainOf [nTag "yearofbirth", chainOf [.str "darren", .num 1976]],
    chainOf [nTag "yearofbirth", chainOf [.str "james", .num 1969]],
    chainOf [nTag "yearofbirth", chainOf [.str "kate", .num 1975]],
    chainOf [nTag "yearofbirth", chainOf [.str "kyle", .num 1976]],
    chainOf [nTag "older", chainOf [vTag "a", vTag "b"], .str ":-",
      chainOf [ chainOf [nTag "yearofbirth", chainOf [vTag "a", vTag "y1"]],
                chainOf [nTag "yearofbirth", chainOf [vTag "b", vTag "y2"]],
                chainOf [nTag ">", chainOf [vTag "y2", vTag "y1"]] ] ],
    chainOf [nTag "family_test", .str ":-",
      chainOf [ chainOf [nTag "older_brother", chainOf [vTag "result6"]],
                chainOf [nTag "writeln", chainOf [vTag "result6"]] ] ] ]

/-- The pair sequence `expected_result` of `main` pairs `result6` with. -/
def expectedPairs : Term :=
  chainOf [ chainOf [.str "peter", .str "jim"],
            chainOf [.str "james", .str "lee"],
            chainOf [.str "james", .str "sandra"],
            chainOf [.str "james", .str "kate"],
            chainOf [.str "james", .str "kyle"],
            chainOf [.str "peter", .str "jim"],
            chainOf [.str "brian", .str "darren"] ]

/-- `expected_result` of `main`: `[[["v","result6"], pairs]]`. -/
def expected_result : Term :=
  chainOf [chainOf [vTag "result6", expectedPairs]]

/-! ## Helper lemmas -/

theorem tlen_chainOf (ts : List Term) : tlen (chainOf ts) = ts.length := by
  induction ts with
  | nil => rfl
  | cons t ts ih => simp [chainOf, tlen, ih]

theorem isList_chainOf (ts : List Term) : isList (chainOf ts) = true := by
  cases ts <;> rfl

theorem is_atom_chainOf (ts : List Term) : is_atom (chainOf ts) = false := by
  cases ts <;> rfl

theorem seqLoopF_nil (recur : Req → Nat → Option (List Bindings × Nat))
    (sols : List Bindings) (cnt : Nat) (racc : List Bindings) :
    seqLoopF recur .nil sols cnt racc = some (racc.reverse ++ sols, cnt) := by
  induction sols generalizing racc with
  | nil => simp [seqLoopF]
  | cons s ss ih => simp [seqLoopF, ih, List.append_assoc]

/-- A successful `unifyA` run is stable under extra fuel. -/
theorem unifyA_mono {fuel : Nat} {fl : Bool} {t1 t2 : Term} {b : Bindings}
    {r : Bindings × Bool} (h : unifyA fuel fl t1 t2 b = some r) :
    unifyA (fuel+1) fl t1 t2 b = some r := by
  induction fuel generalizing fl t1 t2 b r with
  | zero => simp [unifyA] at h
  | succ f ih =>
    cases fl with
    | true =>
      rw [unifyA] at h ⊢
      by_cases hv1 : is_variable t1 = true
      · simp only [hv1, if_true] at h ⊢
        cases hnm : get_variable_name t1 with
        | none => simpa [hnm] using h
        | some nm =>
          simp only [hnm] at h ⊢
          cases hb : blookup b nm with
          | none => simpa [hb] using h
          | some v => simp only [hb] at h ⊢; exact ih h
      · simp only [hv1, if_false, Bool.not_eq_true] at h ⊢
        by_cases hv2 : is_variable t2 = true
        · simp only [hv2, if_true] at h ⊢
          cases hnm : get_variable_name t2 with
          | none => simpa [hnm] using h
          | some nm =>
            simp only [hnm] at h ⊢
            cases hb : blookup b nm with
            | none => simpa [hb] using h
            | some v => simp only [hb] at h ⊢; exact ih h
        · simp only [hv2, if_false] at h ⊢
          by_cases ha : (is_atom t1 && is_atom t2) = true
          · simpa [ha] using h
          · simp only [ha, if_false] at h ⊢
            by_cases hl : (isList t1 && isList t2) = true
            · simp only [hl, if_true] at h ⊢
              by_cases hlen : tlen t1 = tlen t2
              · simp only [hlen, if_true] at h ⊢; exact ih h
              · simpa [hlen] using h
            · simpa [hl] using h
    | false =>
      cases t1 with
      | nil => exact h
      | str s => exact h
      | num n => exact h
      | cons h1 tl1 =>
        cases t2 with
        | nil => exact h
        | str s => exact h
        | num n => exact h
        | cons h2 tl2 =>
          have e0 : unifyA (f+1) false (.cons h1 tl1) (.cons h2 tl2) b =
              (match unifyA f true h1 h2 b with
               | none => none
               | some (b', true) => unifyA f false tl1 tl2 b'
               | some (b', false) => some (b', false)) := rfl
          have e1 : unifyA (f+1+1) false (.cons h1 tl1) (.cons h2 tl2) b =
              (match unifyA (f+1) true h1 h2 b with
               | none => none
               | some (b', true) => unifyA (f+1) false tl1 tl2 b'
               | some (b', false) => some (b', false)) := rfl
          rw [e0] at h
          rw [e1]
          cases hu : unifyA f true h1 h2 b with
          | none => rw [hu] at h; exact absurd h (by simp)
          | some rb =>
            obtain ⟨b', ok⟩ := rb
            rw [hu] at h
            rw [ih hu]
            cases ok with
            | true => exact ih h
            | false => exact h

theorem unifyA_mono_le {f f' : Nat} {fl : Bool} {t1 t2 : Term} {b : Bindings}
    {r : Bindings × Bool} (hle : f ≤ f') (h : unifyA f fl t1 t2 b = some r) :
    unifyA f' fl t1 t2 b = some r := by
  induction hle with
  | refl => exact h
  | step _ ih => exact unifyA_mono ih

/-- Two successful `unifyA` runs at any fuels agree. -/
theorem unifyA_det {f f' : Nat} {fl : Bool} {t1 t2 : Term} {b : Bindings}
    {r r' : Bindings × Bool} (h : unifyA f fl t1 t2 b = some r)
    (h' : unifyA f' fl t1 t2 b = some r') : r = r' := by
  rcases Nat.le_total f f' with hle | hle
  · have h2 := unifyA_mono_le hle h
    rw [h2] at h'
    exact Option.some_inj.mp h'
  · have h2 := unifyA_mono_le hle h'
    rw [h2] at h
    exact (Option.some_inj.mp h).symm

/-! ## Claims -/

/-- C9: `unify` is not atomic on failure.  On the two-element compound
`[[v, x], 1]` against `[2, 3]`, `unify` fails (the second element pair
mismatches), yet the binding dictionary handed back has gained the entry
`x ↦ 2` made for the first element pair: nothing is rolled back. -/
theorem unify_not_atomic_on_failure :
    unify 10 (chainOf [vTag "x", .num 1]) (chainOf [.num 2, .num 3]) [] =
      some ([(Term.str "x", Term.num 2)], false)
    ∧ blookup [] (Term.str "x") = none
    ∧ blookup [(Term.str "x", Term.num 2)] (Term.str "x") = some (Term.num 2) := by
  refine ⟨by decide, rfl, by decide⟩

/-- C6: `>/2` shallow-substitutes both arguments of its two-element
argument list and then either succeeds with exactly the unchanged
binding set (when both results are numeric and the left is strictly
greater) or returns no solution; it is a total function, so a type
mismatch such as a string against a number is a plain failure, never an
error. -/
theorem solve_greater_semantics (a1 a2 : Term) (b : Bindings) :
    (solve_greater (chainOf [a1, a2]) b = [b] ∨ solve_greater (chainOf [a1, a2]) b = [])
    ∧ (solve_greater (chainOf [a1, a2]) b = [b] ↔
        ∃ l r : Int, substitute_variables a1 b = Term.num l ∧
          substitute_variables a2 b = Term.num r ∧ l > r) := by
  have hgr : solve_greater (chainOf [a1, a2]) b =
      (match substitute_variables a1 b, substitute_variables a2 b with
       | .num l, .num r => if l > r then [b] else []
       | _, _ => []) := rfl
  refine ⟨?_, ?_⟩
  · rw [hgr]
    cases hs1 : substitute_variables a1 b <;> cases hs2 : substitute_variables a2 b <;>
      try (right; rfl)
    rename_i l r
    by_cases hlt : l > r
    · left; simp [hlt]
    · right; simp [hlt]
  · constructor
    · intro hEq
      rw [hgr] at hEq
      cases hs1 : substitute_variables a1 b with
      | num l =>
        cases hs2 : substitute_variables a2 b with
        | num r =>
          rw [hs1, hs2] at hEq
          by_cases hlt : l > r
          · exact ⟨l, r, rfl, rfl, hlt⟩
          · rw [show (match Term.num l, Term.num r with
                | Term.num l, Term.num r => if l > r then [b] else []
                | _, _ => ([] : List Bindings)) = if l > r then [b] else [] from rfl,
              if_neg hlt] at hEq
            simp at hEq
        | str s2 => rw [hs1, hs2] at hEq; simp at hEq
        | nil => rw [hs1, hs2] at hEq; simp at hEq
        | cons h2 tl2 => rw [hs1, hs2] at hEq; simp at hEq
      | str s1 =>
        cases hs2 : substitute_variables a2 b <;> rw [hs1, hs2] at hEq <;> simp at hEq
      | nil =>
        cases hs2 : substitute_variables a2 b <;> rw [hs1, hs2] at hEq <;> simp at hEq
      | cons h1 tl1 =>
        cases hs2 : substitute_variables a2 b <;> rw [hs1, hs2] at hEq <;> simp at hEq
    · rintro ⟨l, r, hl, hr, hlt⟩
      rw [hgr, hl, hr]
      simp [hlt]

/-- What the spec says the element loop of `unify` does: unify the
element pairs left-to-right with the remaining fuel, threading the
binding set through each pair and short-circuiting to failure at the
first pair that fails. -/
def threadUnify : Nat → List Term → List Term → Bindings → Option (Bindings × Bool)
  | 0, _, _, _ => none
  | _+1, [], _, b => some (b, true)
  | fuel+1, t1 :: ts1, t2 :: ts2, b =>
    match unify fuel t1 t2 b with
    | none => none
    | some (b', true) => threadUnify fuel ts1 ts2 b'
    | some (b', false) => some (b', false)
  | _+1, _ :: _, [], b => some (b, false)

theorem unifyA_false_eq_threadUnify (fuel : Nat) (ts1 ts2 : List Term) (b : Bindings) :
    unifyA fuel false (chainOf ts1) (chainOf ts2) b = threadUnify fuel ts1 ts2 b := by
  induction fuel generalizing ts1 ts2 b with
  | zero => rfl
  | succ f ih =>
    cases ts1 with
    | nil => cases ts2 <;> rfl
    | cons t1 ts1 =>
      cases ts2 with
      | nil => rfl
      | cons t2 ts2 =>
        show (match unify f t1 t2 b with
              | none => none
              | some (b', true) => unifyA f false (chainOf ts1) (chainOf ts2) b'
              | some (b', false) => some (b', false)) =
            (match unify f t1 t2 b with
              | none => none
              | some (b', true) => threadUnify f ts1 ts2 b'
              | some (b', false) => some (b', false))
        cases hu : unify f t1 t2 b with
        | none => rfl
        | some rb =>
          obtain ⟨b', ok⟩ := rb
          cases ok
          · rfl
          · exact ih ts1 ts2 b'

/-- C7: on two compound (non-variable list) terms, `unify` always fails
when the lengths differ, leaving the binding set unchanged; with equal
lengths it unifies the element pairs left-to-right, threading the
binding set through each pair and short-circuiting to failure at the
first failing pair (`threadUnify`). -/
theorem unify_on_compounds (fuel : Nat) (ts1 ts2 : List Term) (b : Bindings)
    (h1 : is_variable (chainOf ts1) = false) (h2 : is_variable (chainOf ts2) = false) :
    (ts1.length ≠ ts2.length →
      unify (fuel+1) (chainOf ts1) (chainOf ts2) b = some (b, false))
    ∧ (ts1.length = ts2.length →
      unify (fuel+1) (chainOf ts1) (chainOf ts2) b = threadUnify fuel ts1 ts2 b) := by
  have hstep : unify (fuel+1) (chainOf ts1) (chainOf ts2) b =
      (if tlen (chainOf ts1) = tlen (chainOf ts2)
       then unifyA fuel false (chainOf ts1) (chainOf ts2) b
       else some (b, false)) := by
    show unifyA (fuel+1) true (chainOf ts1) (chainOf ts2) b = _
    rw [unifyA]
    rw [if_neg (by simp [h1]), if_neg (by simp [h2]),
      if_neg (by simp [is_atom_chainOf]), if_pos (by simp [isList_chainOf])]
  constructor
  · intro hne
    rw [hstep, if_neg (by simpa [tlen_chainOf] using hne)]
  · intro heq
    rw [hstep, if_pos (by simpa [tlen_chainOf] using heq)]
    exact unifyA_false_eq_threadUnify fuel ts1 ts2 b

/-- Witness for C7 at concrete inputs: `[1]` against `[]` (length
mismatch fails with unchanged bindings), and `[[v, x], 1]` against
`[2, 3]` (equal lengths thread pairwise). -/
theorem unify_on_compounds_witness :
    unify 9 (chainOf [Term.num 1]) (chainOf []) [] = some ([], false)
    ∧ unify 9 (chainOf [vTag "y", .num 1]) (chainOf [.num 2, .num 3]) [] =
        threadUnify 8 [vTag "y", .num 1] [.num 2, .num 3] [] := by
  constructor
  · exact (unify_on_compounds 8 [Term.num 1] [] [] (by decide) (by decide)).1 (by decide)
  · exact (unify_on_compounds 8 [vTag "y", .num 1] [.num 2, .num 3] []
      (by decide) (by decide)).2 (by decide)

/-- C4: `not/1` solves its single inner goal with `solve_goal` against a
(deep-copied) binding set and succeeds with exactly the original,
unchanged binding set as its single solution iff that inner solve has no
solutions; otherwise it has no solutions.  The two outcomes are
complementary. -/
theorem solve_not_negation_as_failure (facts : List Term) (rules : List Rule)
    (sf : Nat → String) (fuel : Nat) (g : Term) (b : Bindings) (cnt : Nat)
    (sols : List Bindings) (cnt' : Nat)
    (h : solve_goal facts rules sf fuel g b cnt = some (sols, cnt')) :
    solve_not facts rules sf (fuel+1) (.cons g .nil) b cnt =
      some (if sols = [] then [b] else [], cnt')
    ∧ (solve_not facts rules sf (fuel+1) (.cons g .nil) b cnt = some ([b], cnt')
        ↔ sols = [])
    ∧ (solve_not facts rules sf (fuel+1) (.cons g .nil) b cnt = some ([], cnt')
        ↔ sols ≠ []) := by
  have hmain : solve_not facts rules sf (fuel+1) (.cons g .nil) b cnt =
      some (if sols = [] then [b] else [], cnt') := by
    show (match run facts rules sf fuel (.goal g b) cnt with
          | none => none
          | some (sols, cnt') => some (if sols.isEmpty then [b] else [], cnt')) =
        some (if sols = [] then [b] else [], cnt')
    rw [show run facts rules sf fuel (.goal g b) cnt = some (sols, cnt') from h]
    cases sols <;> simp
  refine ⟨hmain, ?_, ?_⟩
  · rw [hmain]
    cases hs : sols with
    | nil => simp
    | cons s ss => simp
  · rw [hmain]
    cases hs : sols with
    | nil => simp
    | cons s ss => simp

/-- Witness for C4: with an empty knowledge base the inner goal `p` has
no solutions, so `not(p)` succeeds with the original bindings. -/
theorem solve_not_negation_as_failure_witness :
    solve_not [] [] (fun _ => "s") 6 (.cons (chainOf [nTag "p", Term.nil]) .nil)
      [(Term.str "w", Term.num 1)] 0 = some ([[(Term.str "w", Term.num 1)]], 0) := by
  have h := solve_not_negation_as_failure [] [] (fun _ => "s") 5
    (chainOf [nTag "p", Term.nil]) [(Term.str "w", Term.num 1)] 0 [] 0 (by decide)
  simpa using h.1

/-- Counterexample to C5 as stated: with an empty knowledge base the
goal conjunction `[p]` has zero proofs, yet `findall` with the
non-variable result argument `5` returns zero solutions (it unifies `5`
against the empty sequence and fails) rather than succeeding. -/
theorem findall_nonvar_result_counterexample :
    solve_body [] [] (fun _ => "s") 10 (chainOf [chainOf [nTag "p", Term.nil]]) [] 0 =
      some ([], 0)
    ∧ solve_findall [] [] (fun _ => "s") 11
        (chainOf [vTag "t", chainOf [chainOf [nTag "p", Term.nil]], Term.num 5]) [] 0 =
      some ([], 0) := by
  refine ⟨by decide, by decide⟩

/-- C5 as amended: `findall(T, G, R)` has at most one solution; and when
the goal conjunction `G` has zero proofs and `R` is a variable
reference, it binds `R` to the empty sequence and succeeds with exactly
one solution.  (When `R` is not a variable reference it is unified
against the collected sequence instead and may fail, as the
counterexample shows.) -/
theorem findall_amended (facts : List Term) (rules : List Rule) (sf : Nat → String)
    (fuel : Nat) (T G R : Term) (b : Bindings) (cnt : Nat) :
    (∀ sols cnt', solve_findall facts rules sf fuel (chainOf [T, G, R]) b cnt =
        some (sols, cnt') → sols.length ≤ 1)
    ∧ (∀ nm cnt2, isList G = true →
        run facts rules sf fuel (.body G b) cnt = some ([], cnt2) →
        get_variable_name R = some nm →
        solve_findall facts rules sf (fuel+1) (chainOf [T, G, R]) b cnt =
          some ([bset b nm Term.nil], cnt2)) := by
  constructor
  · intro sols cnt' h
    cases fuel with
    | zero => exact absurd h (by simp [solve_findall, run])
    | succ f =>
      have hred : solve_findall facts rules sf (f+1) (chainOf [T, G, R]) b cnt =
          (if isList G then
            match run facts rules sf f (.body G b) cnt with
            | none => none
            | some (gsols, cnt2) =>
              match get_variable_name R with
              | some nm => some ([bset b nm (chainOnto
                  (gsols.foldl (fun acc s => substitute_variables T s :: acc) []) .nil)], cnt2)
              | none =>
                match unify (f+1) R (chainOnto
                    (gsols.foldl (fun acc s => substitute_variables T s :: acc) []) .nil) b with
                | none => none
                | some (b', true) => some ([b'], cnt2)
                | some (_, false) => some ([], cnt2)
          else some ([], cnt)) := rfl
      rw [hred] at h
      by_cases hL : isList G = true
      · rw [if_pos hL] at h
        cases hb : run facts rules sf f (.body G b) cnt with
        | none => rw [hb] at h; exact absurd h (by simp)
        | some p =>
          obtain ⟨gsols, cnt2⟩ := p
          rw [hb] at h
          cases hv : get_variable_name R with
          | some nm =>
            rw [hv] at h
            obtain ⟨rfl, rfl⟩ : sols = _ ∧ cnt2 = cnt' := by
              constructor <;> [exact (Prod.mk.injEq .. ▸ Option.some_inj.mp h).1.symm;
                exact (Prod.mk.injEq .. ▸ Option.some_inj.mp h).2]
            simp
          | none =>
            rw [hv] at h
            dsimp only at h
            cases hu : unify (f+1) R (chainOnto
                (gsols.foldl (fun acc s => substitute_variables T s :: acc) []) .nil) b with
            | none => rw [hu] at h; exact absurd h (by simp)
            | some rb =>
              obtain ⟨b', ok⟩ := rb
              rw [hu] at h
              cases ok with
              | true =>
                have := (Prod.mk.injEq .. ▸ Option.some_inj.mp h).1
                simp [← this]
              | false =>
                have := (Prod.mk.injEq .. ▸ Option.some_inj.mp h).1
                simp [← this]
      · rw [if_neg hL] at h
        have := (Prod.mk.injEq .. ▸ Option.some_inj.mp h).1
        simp [← this]
  · intro nm cnt2 hL hrun hv
    have hred : solve_findall facts rules sf (fuel+1) (chainOf [T, G, R]) b cnt =
        (if isList G then
          match run facts rules sf fuel (.body G b) cnt with
          | none => none
          | some (gsols, cnt2) =>
            match get_variable_name R with
            | some nm => some ([bset b nm (chainOnto
                (gsols.foldl (fun acc s => substitute_variables T s :: acc) []) .nil)], cnt2)
            | none =>
              match unify (fuel+1) R (chainOnto
                  (gsols.foldl (fun acc s => substitute_variables T s :: acc) []) .nil) b with
              | none => none
              | some (b', true) => some ([b'], cnt2)
              | some (_, false) => some ([], cnt2)
        else some ([], cnt)) := rfl
    rw [hred, if_pos hL, hrun, hv]
    rfl

/-- Counterexample to C2 as stated: `<` is not one of the five names the
claim lists, yet a `<`-goal is dispatched to the built-in library (which
has no handler for it and yields zero solutions) instead of being
resolved against the facts — here a matching `<`-fact exists, and
`solve_goal` alone would find it (one solution, the empty binding
set). -/
theorem builtin_dispatch_lt_counterexample :
    is_builtin_predicate (chainOf [nTag "<", chainOf [.num 1, .num 2]]) = true
    ∧ ("<" ∉ (["findall", "not", "=", ">", "writeln"] : List String))
    ∧ solve_body [chainOf [nTag "<", chainOf [.num 1, .num 2]]] [] (fun _ => "s") 10
        (chainOf [chainOf [nTag "<", chainOf [.num 1, .num 2]]]) [] 0 = some ([], 0)
    ∧ solve_goal [chainOf [nTag "<", chainOf [.num 1, .num 2]]] [] (fun _ => "s") 10
        (chainOf [nTag "<", chainOf [.num 1, .num 2]]) [] 0 = some ([[]], 0) := by
  refine ⟨by decide, by decide, by decide, by decide⟩

/-- C2 as amended: `solve_body` dispatches its first goal to the
built-in library iff the goal is a list of length ≥ 2 whose first
element is a two-element list `[n, name]` with `name` one of the SIX
strings findall, not, =, >, < and writeln (`<` is recognised by the
dispatch test although the library has no `<` handler and returns no
solutions for it); every other first goal goes to `solve_goal`. -/
theorem builtin_dispatch_amended (g : Term) :
    (is_builtin_predicate g = true ↔
      ∃ nm args rest, g = .cons (.cons (.str "n") (.cons (.str nm) .nil)) (.cons args rest)
        ∧ nm ∈ (["findall", "not", "=", ">", "<", "writeln"] : List String))
    ∧ (∀ (facts : List Term) (rules : List Rule) (sf : Nat → String)
        (fuel : Nat) (b : Bindings) (cnt : Nat),
        solve_body facts rules sf (fuel+1) (.cons g .nil) b cnt =
          (if is_builtin_predicate g
           then solve_builtin facts rules sf fuel g b cnt
           else solve_goal facts rules sf fuel g b cnt)) := by
  constructor
  · constructor
    · intro h
      unfold is_builtin_predicate at h
      split at h
      · rename_i t0 nm a rest
        exact ⟨nm, a, rest, rfl, by simpa using h⟩
      · exact absurd h (by simp)
    · rintro ⟨nm, args, rest, rfl, hmem⟩
      unfold is_builtin_predicate
      simpa using hmem
  · intro facts rules sf fuel b cnt
    have hred : solve_body facts rules sf (fuel+1) (.cons g .nil) b cnt =
        (match (if is_builtin_predicate g
                then run facts rules sf fuel (.builtin g b) cnt
                else run facts rules sf fuel (.goal g b) cnt) with
         | none => none
         | some (sols, cnt') => seqLoopF (run facts rules sf fuel) .nil sols cnt' []) := rfl
    rw [hred]
    by_cases hbi : is_builtin_predicate g = true
    · rw [if_pos hbi, if_pos hbi]
      cases hrun : run facts rules sf fuel (.builtin g b) cnt with
      | none => simp [solve_builtin, hrun]
      | some p =>
        obtain ⟨sols, cnt'⟩ := p
        dsimp only
        rw [seqLoopF_nil]
        simp [solve_builtin, hrun]
    · rw [if_neg hbi, if_neg hbi]
      cases hrun : run facts rules sf fuel (.goal g b) cnt with
      | none => simp [solve_goal, hrun]
      | some p =>
        obtain ⟨sols, cnt'⟩ := p
        dsimp only
        rw [seqLoopF_nil]
        simp [solve_goal, hrun]

/-- Groundness of a term (element/tail flagged like the walkers): no
variable reference occurs anywhere in it. -/
def groundA : Bool → Term → Bool
  | true, t =>
    if is_variable t then false
    else
      match t with
      | .cons h tl => groundA true h && groundA false tl
      | _ => true
  | false, .cons h tl => groundA true h && groundA false tl
  | false, _ => true

/-- A term with no variable references in it. -/
def isGround (t : Term) : Bool := groundA true t

theorem tsize_pos (t : Term) : 1 ≤ tsize t := by
  cases t <;> simp [tsize]

/-- Chain resolution is the identity on ground terms, given fuel at
least the term's size. -/
theorem rvcA_ground (b : Bindings) (t : Term) :
    ∀ (fl : Bool) (fuel : Nat), groundA fl t = true → tsize t ≤ fuel →
      rvcA fuel fl b t = some t := by
  induction t with
  | str s =>
    intro fl fuel _ hf
    obtain ⟨f, rfl⟩ : ∃ f, fuel = f + 1 := ⟨fuel - 1, by simp [tsize] at hf; omega⟩
    cases fl <;> rfl
  | num n =>
    intro fl fuel _ hf
    obtain ⟨f, rfl⟩ : ∃ f, fuel = f + 1 := ⟨fuel - 1, by simp [tsize] at hf; omega⟩
    cases fl <;> rfl
  | nil =>
    intro fl fuel _ hf
    obtain ⟨f, rfl⟩ : ∃ f, fuel = f + 1 := ⟨fuel - 1, by simp [tsize] at hf; omega⟩
    cases fl <;> rfl
  | cons h tl ihh ihtl =>
    intro fl fuel hg hf
    have hsz : tsize (Term.cons h tl) = tsize h + tsize tl + 1 := rfl
    obtain ⟨f, rfl⟩ : ∃ f, fuel = f + 1 := ⟨fuel - 1, by omega⟩
    have hh : tsize h ≤ f := by have := tsize_pos tl; omega
    have htl : tsize tl ≤ f := by have := tsize_pos h; omega
    cases fl with
    | true =>
      have hnv : is_variable (Term.cons h tl) = false := by
        by_contra hc
        simp only [Bool.not_eq_false] at hc
        rw [groundA, hc] at hg
        simp at hg
      have hg' : groundA true h = true ∧ groundA false tl = true := by
        rw [groundA, hnv] at hg
        simpa using hg
      show (if is_variable (Term.cons h tl) then _ else _) = _
      rw [if_neg (by simp [hnv])]
      show (match rvcA f true b h, rvcA f false b tl with
            | some h', some tl' => some (.cons h' tl')
            | _, _ => none) = some (Term.cons h tl)
      rw [ihh true f hg'.1 hh, ihtl false f hg'.2 htl]
    | false =>
      have hg' : groundA true h = true ∧ groundA false tl = true := by
        rw [groundA] at hg
        simpa using hg
      show (match rvcA f true b h, rvcA f false b tl with
            | some h', some tl' => some (.cons h' tl')
            | _, _ => none) = some (Term.cons h tl)
      rw [ihh true f hg'.1 hh, ihtl false f hg'.2 htl]

/-- C3: `substitute_variables` and `resolve_variable_chains` differ
exactly in lookup depth.  When `b` maps `x` to the variable reference
`[v, y]` and `y` to a ground term `t`: the substitution of `[v, x]` is
the reference `[v, y]` itself (one level of lookup, no re-substitution
inside the replacement), while chain resolution of `[v, x]` follows the
chain to its end and returns `t` (for any fuel of at least
`tsize t + 2`).  Both recurse structurally into the children of a
non-variable compound. -/
theorem substitute_shallow_vs_resolve_chain (b : Bindings) (x y t : Term)
    (hx : blookup b x = some (.cons (.str "v") (.cons y .nil)))
    (hy : blookup b y = some t) (hg : isGround t = true) :
    substitute_variables (.cons (.str "v") (.cons x .nil)) b =
      .cons (.str "v") (.cons y .nil)
    ∧ (∀ fuel : Nat,
        resolve_variable_chains (fuel + (tsize t + 2)) (.cons (.str "v") (.cons x .nil)) b =
          some t)
    ∧ (∀ u1 u2 : Term, is_variable (chainOf [u1, u2]) = false →
        substitute_variables (chainOf [u1, u2]) b =
          chainOf [substitute_variables u1 b, substitute_variables u2 b]) := by
  refine ⟨?_, ?_, ?_⟩
  · show (match blookup b x with
          | some v => v
          | none => Term.cons (.str "v") (.cons x .nil)) =
        Term.cons (.str "v") (.cons y .nil)
    rw [hx]
  · intro fuel
    show rvcA (fuel + (tsize t + 2)) true b (.cons (.str "v") (.cons x .nil)) = some t
    rw [show fuel + (tsize t + 2) = (fuel + tsize t + 1) + 1 from by omega]
    show (match blookup b x with
          | some v => rvcA (fuel + tsize t + 1) true b v
          | none => some (.cons (.str "v") (.cons x .nil))) = some t
    rw [hx]
    show (match blookup b y with
          | some v => rvcA (fuel + tsize t) true b v
          | none => some (.cons (.str "v") (.cons y .nil))) = some t
    rw [hy]
    exact rvcA_ground b t true (fuel + tsize t) hg (by omega)
  · intro u1 u2 hnv
    show substA b true (.cons u1 (.cons u2 .nil)) = _
    rw [substA, if_neg (by simp [show is_variable (.cons u1 (.cons u2 .nil)) = false from hnv])]
    rfl

/-- Witness for C3: under `x ↦ [v, y], y ↦ 7`, substitution of `[v, x]`
stops at `[v, y]` while chain resolution reaches `7`. -/
theorem substitute_shallow_vs_resolve_chain_witness :
    substitute_variables (vTag "x")
      [(Term.str "x", vTag "y"), (Term.str "y", Term.num 7)] = vTag "y"
    ∧ resolve_variable_chains 7 (vTag "x")
      [(Term.str "x", vTag "y"), (Term.str "y", Term.num 7)] = some (Term.num 7) := by
  have h := substitute_shallow_vs_resolve_chain
    [(Term.str "x", vTag "y"), (Term.str "y", Term.num 7)]
    (Term.str "x") (Term.str "y") (Term.num 7) (by decide) (by decide) (by decide)
  refine ⟨h.1, ?_⟩
  have h2 := h.2.1 4
  simpa [tsize] using h2

/-- What the fact loop of `solve_goal` computes: every fact that unifies
with the goal starting from the pristine incoming bindings contributes
its resulting binding set, in declaration order (here as the reversed
accumulator). -/
theorem factLoop_eq_filterMap (ufuel : Nat) (g : Term) (b : Bindings) :
    ∀ (facts : List Term) (racc out : List Bindings),
      factLoop ufuel g b facts racc = some out →
      out = (facts.filterMap fun fct =>
        match unify ufuel g fct b with
        | some (b', true) => some b'
        | _ => none).reverse ++ racc := by
  intro facts
  induction facts with
  | nil =>
    intro racc out h
    simpa [factLoop] using (Option.some_inj.mp h).symm
  | cons f fs ih =>
    intro racc out h
    rw [factLoop] at h
    cases hu : unify ufuel g f b with
    | none => rw [hu] at h; exact absurd h (by simp)
    | some rb =>
      obtain ⟨b', ok⟩ := rb
      rw [hu] at h
      dsimp only at h
      have := ih _ _ h
      cases ok with
      | true => simp [this, List.filterMap_cons, hu, List.append_assoc]
      | false => simp [this, List.filterMap_cons, hu]

/-- The rule loop only ever appends: its result extends the reversed
accumulator it starts from. -/
theorem rulesLoopF_extends (recur : Req → Nat → Option (List Bindings × Nat))
    (ufuel : Nat) (sf : Nat → String) (g : Term) (b : Bindings) :
    ∀ (rs : List Rule) (cnt : Nat) (racc : List Bindings) (out : List Bindings)
      (cnt' : Nat), rulesLoopF recur ufuel sf g b rs cnt racc = some (out, cnt') →
      ∃ tail, out = racc.reverse ++ tail := by
  intro rs
  induction rs with
  | nil =>
    intro cnt racc out cnt' h
    rw [rulesLoopF] at h
    exact ⟨[], by simpa using (Prod.mk.injEq .. ▸ Option.some_inj.mp h).1.symm⟩
  | cons r rs ih =>
    intro cnt racc out cnt' h
    rw [rulesLoopF] at h
    cases hu : unify ufuel g (rename_variables (sf cnt) r.head) b with
    | none => rw [hu] at h; exact absurd h (by simp)
    | some rb =>
      obtain ⟨b', ok⟩ := rb
      rw [hu] at h
      cases ok with
      | true =>
        dsimp only at h
        cases hrec : recur (.body (rename_variables (sf (cnt+1)) r.body) b') (cnt+2) with
        | none => rw [hrec] at h; exact absurd h (by simp)
        | some p =>
          obtain ⟨bsols, cnt2⟩ := p
          rw [hrec] at h
          dsimp only at h
          obtain ⟨tail, htail⟩ := ih _ _ _ _ h
          refine ⟨bsols ++ tail, ?_⟩
          rw [htail]
          simp [List.reverseAux_eq, List.append_assoc]
      | false =>
        exact ih _ _ _ _ h

/-- C8: the solutions of `solve_goal` are the fact-loop solutions
followed by the rule-loop solutions, and every fact attempt unifies the
goal against the fact starting from the pristine incoming binding set
`b` (the source deep-copies `b` for each attempt, so no branch observes
a sibling branch's bindings; in this value-semantics model that shows up
as every attempt reading the same `b`).  The rule loop likewise starts
from the same pristine `b` for every rule. -/
theorem solve_goal_branch_independence (facts : List Term) (rules : List Rule)
    (sf : Nat → String) (fuel : Nat) (g : Term) (b : Bindings) (cnt : Nat)
    (sols : List Bindings) (cnt' : Nat)
    (h : solve_goal facts rules sf (fuel+1) g b cnt = some (sols, cnt')) :
    ∃ rsols : List Bindings,
      sols = (facts.filterMap fun fct =>
          match unify (fuel+1) g fct b with
          | some (b', true) => some b'
          | _ => none) ++ rsols
      ∧ rulesLoopF (run facts rules sf fuel) (fuel+1) sf g b rules cnt
          ((facts.filterMap fun fct =>
            match unify (fuel+1) g fct b with
            | some (b', true) => some b'
            | _ => none).reverse) = some (sols, cnt') := by
  have hred : solve_goal facts rules sf (fuel+1) g b cnt =
      (match factLoop (fuel+1) g b facts [] with
       | none => none
       | some rfsols =>
         rulesLoopF (run facts rules sf fuel) (fuel+1) sf g b rules cnt rfsols) := rfl
  rw [hred] at h
  cases hf : factLoop (fuel+1) g b facts [] with
  | none => rw [hf] at h; exact absurd h (by simp)
  | some rfsols =>
    rw [hf] at h
    dsimp only at h
    have hchar := factLoop_eq_filterMap (fuel+1) g b facts [] rfsols hf
    rw [List.append_nil] at hchar
    obtain ⟨tail, htail⟩ := rulesLoopF_extends (run facts rules sf fuel) (fuel+1) sf g b
      rules cnt rfsols sols cnt' h
    refine ⟨tail, ?_, ?_⟩
    · rw [htail, hchar, List.reverse_reverse]
    · rw [← hchar]
      exact h

/-- Witness for C8 on a one-fact knowledge base: the ground goal matches
the single fact, the rule loop adds nothing. -/
theorem solve_goal_branch_independence_witness :
    ∃ rsols : List Bindings,
      ([[]] : List Bindings) = (([chainOf [nTag "p", Term.nil]] : List Term).filterMap
          fun fct =>
          match unify 6 (chainOf [nTag "p", Term.nil]) fct [] with
          | some (b', true) => some b'
          | _ => none) ++ rsols
      ∧ rulesLoopF (run [chainOf [nTag "p", Term.nil]] [] (fun _ => "s") 5) 6
          (fun _ => "s") (chainOf [nTag "p", Term.nil]) [] [] 0
          (([chainOf [nTag "p", Term.nil]] : List Term).filterMap fun fct =>
            match unify 6 (chainOf [nTag "p", Term.nil]) fct [] with
            | some (b', true) => some b'
            | _ => none).reverse = some ([[]], 0) :=
  solve_goal_branch_independence [chainOf [nTag "p", Term.nil]] [] (fun _ => "s") 5
    (chainOf [nTag "p", Term.nil]) [] 0 [[]] 0 (by decide)

/-- C10: the top-level query entry point returns a single-element
sequence pairing the query's variable reference with a value computed
from the FIRST solution only: solutions after the first never influence
the result; with zero solutions, or when the variable is unbound in the
first solution, the paired value is the empty list; otherwise it is the
chain-resolved binding of the variable in the first solution. -/
theorem only_ssi_test_first_solution (sf : Nat → String) (fuel : Nat) (depth : Int)
    (p v0 : Term) (vrest qrest : Term) (w nm wrest : Term) (kb : List Term)
    (sols : List Bindings) (cfin : Nat)
    (hrun : run (parse_knowledge_base kb).1 (parse_knowledge_base kb).2 sf fuel
        (.goal (.cons p (.cons (.cons v0 vrest) .nil)) []) 0 = some (sols, cfin))
    (hv0 : v0 = .cons w (.cons nm wrest)) :
    (sols = [] →
      only_ssi_test sf fuel depth (.cons p (.cons (.cons v0 vrest) qrest)) kb =
        some (.cons (.cons v0 (.cons .nil .nil)) .nil))
    ∧ (∀ s0 rest, sols = s0 :: rest → blookup s0 nm = none →
        only_ssi_test sf fuel depth (.cons p (.cons (.cons v0 vrest) qrest)) kb =
          some (.cons (.cons v0 (.cons .nil .nil)) .nil))
    ∧ (∀ s0 rest raw r, sols = s0 :: rest → blookup s0 nm = some raw →
        rvcA fuel true s0 raw = some r →
        only_ssi_test sf fuel depth (.cons p (.cons (.cons v0 vrest) qrest)) kb =
          some (.cons (.cons v0 (.cons r .nil)) .nil)) := by
  subst hv0
  have hred : only_ssi_test sf fuel depth
      (.cons p (.cons (.cons (.cons w (.cons nm wrest)) vrest) qrest)) kb =
      (match run (parse_knowledge_base kb).1 (parse_knowledge_base kb).2 sf fuel
          (.goal (.cons p (.cons (.cons (.cons w (.cons nm wrest)) vrest) .nil)) []) 0 with
       | none => none
       | some (sols, _) =>
         match sols with
         | [] => some (.cons (.cons (.cons w (.cons nm wrest)) (.cons .nil .nil)) .nil)
         | s0 :: _ =>
           match blookup s0 nm with
           | some raw =>
             match rvcA fuel true s0 raw with
             | none => none
             | some r =>
               some (.cons (.cons (.cons w (.cons nm wrest)) (.cons r .nil)) .nil)
           | none =>
             some (.cons (.cons (.cons w (.cons nm wrest)) (.cons .nil .nil)) .nil)) := rfl
  rw [hred, hrun]
  dsimp only
  refine ⟨?_, ?_, ?_⟩
  · rintro rfl
    rfl
  · rintro s0 rest rfl hlook
    dsimp only
    rw [hlook]
  · rintro s0 rest raw r rfl hlook hres
    dsimp only
    rw [hlook]
    dsimp only
    rw [hres]

/-- Witness for C10 on `p(a). p(b).` with query `p(X)`: two solutions
exist, and the result is grounded from the first alone. -/
theorem only_ssi_test_first_solution_witness :
    only_ssi_test (fun _ => "s") 8 3
      (chainOf [nTag "p", chainOf [vTag "x"]])
      [chainOf [nTag "p", chainOf [.str "a"]], chainOf [nTag "p", chainOf [.str "b"]]] =
      some (chainOf [chainOf [vTag "x", .str "a"]]) := by
  have h := only_ssi_test_first_solution (fun _ => "s") 8 3
    (nTag "p") (vTag "x") Term.nil Term.nil (Term.str "v") (Term.str "x") Term.nil
    [chainOf [nTag "p", chainOf [.str "a"]], chainOf [nTag "p", chainOf [.str "b"]]]
    [[(Term.str "x", Term.str "a")], [(Term.str "x", Term.str "b")]] 0
    (by decide) (by decide)
  have h3 := h.2.2 [(Term.str "x", Term.str "a")] [[(Term.str "x", Term.str "b")]]
    (Term.str "a") (Term.str "a") rfl (by decide) (by decide)
  simpa using h3

/-! ## The end-to-end family-tree run (C1) -/

theorem c_prefix_data (s : String) : ("c_" ++ s).data = 'c' :: '_' :: s.data := rfl

theorem c_prefix_ne_result6 (s : String) : ("c_" ++ s) ≠ "result6" := by
  intro h
  have hd := congrArg String.data h
  rw [c_prefix_data] at hd
  simp at hd

theorem c_append_inj {s t : String} (h : ("c_" ++ s) = ("c_" ++ t)) : s = t := by
  have hd := congrArg String.data h
  rw [c_prefix_data, c_prefix_data] at hd
  simp only [List.cons.injEq, true_and] at hd
  cases s with
  | mk sd =>
    cases t with
    | mk td => exact congrArg String.mk hd

/-- The facts `parse_knowledge_base` extracts from `mainKB` (the 38
`parent`/`male`/`yearofbirth` clauses plus the malformed `family_test`
clause, which lacks `":-"` at index 2 and is silently kept as a
fact). -/
def mainFacts : List Term := (parse_knowledge_base mainKB).1

/-- The rules `parse_knowledge_base` extracts from `mainKB`. -/
def mainRules : List Rule := (parse_knowledge_base mainKB).2

/-- The goal `only_ssi_test` builds from `mainQuery`. -/
def mainGoal : Term :=
  .cons (nTag "older_brother") (.cons (.cons (vTag "result6") .nil) .nil)

/-- The parsed `older_brother` rule. -/
def obRule : Rule :=
  { head := chainOf [nTag "older_brother", chainOf [vTag "c"]],
    body := chainOf [chainOf [nTag "findall",
      chainOf [ chainOf [vTag "a", vTag "b"],
                chainOf [ chainOf [nTag "siblings", chainOf [vTag "a", vTag "b"]],
                          chainOf [nTag "male", chainOf [vTag "a"]],
                          chainOf [nTag "older", chainOf [vTag "a", vTag "b"]] ],
                vTag "c" ]]] }

/-- The parsed `siblings` rule. -/
def sibRule : Rule :=
  { head := chainOf [nTag "siblings", chainOf [vTag "a", vTag "b"]],
    body := chainOf [ chainOf [nTag "parent", chainOf [vTag "x", vTag "a"]],
                      chainOf [nTag "parent", chainOf [vTag "x", vTag "b"]],
                      chainOf [nTag "not",
                        chainOf [chainOf [nTag "=", chainOf [vTag "a", vTag "b"]]]] ] }

/-- The parsed `older` rule. -/
def oldRule : Rule :=
  { head := chainOf [nTag "older", chainOf [vTag "a", vTag "b"]],
    body := chainOf [ chainOf [nTag "yearofbirth", chainOf [vTag "a", vTag "y1"]],
                      chainOf [nTag "yearofbirth", chainOf [vTag "b", vTag "y2"]],
                      chainOf [nTag ">", chainOf [vTag "y2", vTag "y1"]] ] }

theorem mainRules_eq : mainRules = [obRule, sibRule, oldRule] := rfl

/-- The `findall` template of the `older_brother` body, renamed with
suffix `s`. -/
def templateR (s : String) : Term := chainOf [vTag ("a_" ++ s), vTag ("b_" ++ s)]

/-- The `findall` goal list of the `older_brother` body, renamed with
suffix `s`. -/
def goalListR (s : String) : Term :=
  chainOf [ chainOf [nTag "siblings", chainOf [vTag ("a_" ++ s), vTag ("b_" ++ s)]],
            chainOf [nTag "male", chainOf [vTag ("a_" ++ s)]],
            chainOf [nTag "older", chainOf [vTag ("a_" ++ s), vTag ("b_" ++ s)]] ]

/-- The `findall` argument list of the `older_brother` body, renamed
with suffix `s`: the result variable is `[v, c_s]`. -/
def findallArgsR (s : String) : Term :=
  chainOf [templateR s, goalListR s, vTag ("c_" ++ s)]

/-- The single goal of the `older_brother` body, renamed with suffix
`s`. -/
def findallGoalR (s : String) : Term := chainOf [nTag "findall", findallArgsR s]

theorem obBody_renamed (s : String) :
    rename_variables s obRule.body = .cons (findallGoalR s) .nil := rfl

/-- No fact of the knowledge base unifies with the `older_brother`
goal (at fuel 40; by determinism, at any fuel). -/
theorem mainFacts_unify_fail :
    ∀ fct ∈ mainFacts, unifyA 40 true mainGoal fct [] = some ([], false) := by decide

/-- Unifying the goal with the renamed `older_brother` head binds
`result6` to the renamed head variable reference `[v, c_s]`. -/
theorem obHead_unify (s : String) :
    unifyA 40 true mainGoal (rename_variables s obRule.head) [] =
      some ([(Term.str "result6", vTag ("c_" ++ s))], true) := rfl

theorem sibHead_unify (s : String) :
    unifyA 40 true mainGoal (rename_variables s sibRule.head) [] =
      some ([], false) := rfl

theorem oldHead_unify (s : String) :
    unifyA 40 true mainGoal (rename_variables s oldRule.head) [] =
      some ([], false) := rfl

/-- Whatever the (suffix-renamed) `older_brother` body's `findall`
computes, its solution list is exactly one binding set: the incoming one
extended at `c_s` with the collected results. -/
theorem mainBody_shape (sf : Nat → String) (s : String) (f : Nat) (b : Bindings)
    (cnt : Nat) (bsols : List Bindings) (cnt2 : Nat)
    (h : run mainFacts mainRules sf f (.body (.cons (findallGoalR s) .nil) b) cnt =
      some (bsols, cnt2)) :
    ∃ RES : Term, bsols = [bset b (Term.str ("c_" ++ s)) RES] := by
  cases f with
  | zero => exact absurd h (by simp [run])
  | succ f1 =>
    have hred : run mainFacts mainRules sf (f1+1)
        (.body (.cons (findallGoalR s) .nil) b) cnt =
        (match run mainFacts mainRules sf f1 (.builtin (findallGoalR s) b) cnt with
         | none => none
         | some (sols', cnt') =>
           seqLoopF (run mainFacts mainRules sf f1) .nil sols' cnt' []) := rfl
    rw [hred] at h
    cases f1 with
    | zero => exact absurd h (by simp [run])
    | succ f2 =>
      have hred2 : run mainFacts mainRules sf (f2+1) (.builtin (findallGoalR s) b) cnt =
          run mainFacts mainRules sf f2 (.findall (findallArgsR s) b) cnt := rfl
      rw [hred2] at h
      cases f2 with
      | zero => exact absurd h (by simp [run])
      | succ f3 =>
        have hred3 : run mainFacts mainRules sf (f3+1) (.findall (findallArgsR s) b) cnt =
            (match run mainFacts mainRules sf f3 (.body (goalListR s) b) cnt with
             | none => none
             | some (gsols, cnt') =>
               some ([bset b (Term.str ("c_" ++ s)) (chainOnto
                 (gsols.foldl (fun acc sol => substitute_variables (templateR s) sol :: acc) [])
                 .nil)], cnt')) := rfl
        rw [hred3] at h
        cases hg : run mainFacts mainRules sf f3 (.body (goalListR s) b) cnt with
        | none => rw [hg] at h; exact absurd h (by simp)
        | some p =>
          obtain ⟨gsols, cnt'⟩ := p
          rw [hg] at h
          dsimp only at h
          rw [seqLoopF_nil] at h
          simp only [List.reverse_nil, List.nil_append, Option.some_inj,
            Prod.mk.injEq] at h
          exact ⟨_, h.1.symm⟩

/-- Shape of the whole `older_brother` solve: whenever it terminates,
its solution list is a single binding set mapping `result6` to the
dangling head reference `[v, c_<sf 0>]` and `c_<sf 1>` to the collected
`findall` results — the head suffix `sf 0` and the body suffix `sf 1`
come from two separate rename draws. -/
theorem mainRun_shape (sf : Nat → String) (fuel : Nat) (sols : List Bindings) (cfin : Nat)
    (h : run mainFacts mainRules sf fuel (.goal mainGoal []) 0 = some (sols, cfin)) :
    ∃ RES : Term, sols = [[(Term.str "result6", vTag ("c_" ++ sf 0)),
      (Term.str ("c_" ++ sf 1), RES)]] := by
  cases fuel with
  | zero => exact absurd h (by simp [run])
  | succ f =>
    have hred : run mainFacts mainRules sf (f+1) (.goal mainGoal []) 0 =
        (match factLoop (f+1) mainGoal [] mainFacts [] with
         | none => none
         | some rfsols =>
           rulesLoopF (run mainFacts mainRules sf f) (f+1) sf mainGoal []
             mainRules 0 rfsols) := rfl
    rw [hred] at h
    cases hf : factLoop (f+1) mainGoal [] mainFacts [] with
    | none => rw [hf] at h; exact absurd h (by simp)
    | some rfsols =>
      rw [hf] at h
      try dsimp only at h
      have hempty : rfsols = [] := by
        have hchar := factLoop_eq_filterMap (f+1) mainGoal [] mainFacts [] rfsols hf
        rw [List.append_nil] at hchar
        have hnil : (mainFacts.filterMap fun fct =>
            match unify (f+1) mainGoal fct [] with
            | some (b', true) => some b'
            | _ => none) = [] := by
          rw [List.filterMap_eq_nil_iff]
          intro fct hfct
          cases hu : unify (f+1) mainGoal fct [] with
          | none => rfl
          | some r =>
            have hr : r = ([], false) := unifyA_det hu (mainFacts_unify_fail fct hfct)
            rw [hr]
        rw [hchar, hnil]
        rfl
      subst hempty
      rw [mainRules_eq, rulesLoopF] at h
      try dsimp only at h
      cases hu1 : unify (f+1) mainGoal (rename_variables (sf 0) obRule.head) [] with
      | none => rw [hu1] at h; exact absurd h (by simp)
      | some r1 =>
        have hr1 : r1 = ([(Term.str "result6", vTag ("c_" ++ sf 0))], true) :=
          unifyA_det hu1 (obHead_unify (sf 0))
        rw [hu1, hr1] at h
        try dsimp only at h
        rw [obBody_renamed] at h
        cases hb : run mainFacts [obRule, sibRule, oldRule] sf f
            (.body (.cons (findallGoalR (sf (0+1))) .nil)
              [(Term.str "result6", vTag ("c_" ++ sf 0))]) (0+2) with
        | none => rw [hb] at h; exact absurd h (by simp)
        | some p =>
          obtain ⟨bsols, cnt2⟩ := p
          rw [hb] at h
          try dsimp only at h
          obtain ⟨RES, hbs⟩ := mainBody_shape sf (sf 1) f _ 2 bsols cnt2 hb
          subst hbs
          rw [rulesLoopF] at h
          try dsimp only at h
          cases hu2 : unify (f+1) mainGoal (rename_variables (sf cnt2) sibRule.head) [] with
          | none => rw [hu2] at h; exact absurd h (by simp)
          | some r2 =>
            have hr2 : r2 = ([], false) := unifyA_det hu2 (sibHead_unify (sf cnt2))
            rw [hu2, hr2] at h
            try dsimp only at h
            rw [rulesLoopF] at h
            try dsimp only at h
            cases hu3 : unify (f+1) mainGoal
                (rename_variables (sf (cnt2+2)) oldRule.head) [] with
            | none => rw [hu3] at h; exact absurd h (by simp)
            | some r3 =>
              have hr3 : r3 = ([], false) := unifyA_det hu3 (oldHead_unify (sf (cnt2+2)))
              rw [hu3, hr3] at h
              try dsimp only at h
              rw [rulesLoopF] at h
              simp only [Option.some_inj, Prod.mk.injEq] at h
              refine ⟨RES, ?_⟩
              rw [← h.1]
              have hbset : bset [(Term.str "result6", vTag ("c_" ++ sf 0))]
                  (Term.str ("c_" ++ sf 1)) RES =
                  [(Term.str "result6", vTag ("c_" ++ sf 0)),
                   (Term.str ("c_" ++ sf 1), RES)] := by
                rw [bset, if_neg]
                · rfl
                · intro hh
                  exact c_prefix_ne_result6 (sf 1) (Term.str.inj hh)
              rw [hbset]
              simp [List.reverseAux_eq]

/-- C1 (code bug): on `main`'s query and family-tree knowledge base,
whenever the first two suffix draws differ (which the random generator
gives with probability 8999/9000), the run either diverges or returns
`[[[v, result6], [v, c_<sf 0>]]]` — an UNRESOLVED variable reference,
because the rule head is renamed with draw `sf 0` while the body
(whose `findall` binds the results) is renamed with draw `sf 1` — and
in particular it never returns `main`'s hardcoded `expected_result`
with its seven grounded pairs. -/
theorem older_brother_never_expected (sf : Nat → String) (fuel : Nat)
    (hsf : sf 0 ≠ sf 1) :
    (only_ssi_test sf fuel 3 mainQuery mainKB = none
      ∨ only_ssi_test sf fuel 3 mainQuery mainKB =
          some (.cons (.cons (vTag "result6")
            (.cons (vTag ("c_" ++ sf 0)) .nil)) .nil))
    ∧ only_ssi_test sf fuel 3 mainQuery mainKB ≠ some expected_result := by
  have hne_pairs : ∀ r : Term, r = vTag ("c_" ++ sf 0) →
      (Term.cons (.cons (vTag "result6") (.cons r .nil)) .nil) ≠ expected_result := by
    rintro r rfl hEq
    simp [expected_result, expectedPairs, vTag, chainOf] at hEq
  cases fuel with
  | zero =>
    have h0 : only_ssi_test sf 0 3 mainQuery mainKB = none := rfl
    rw [h0]
    exact ⟨Or.inl rfl, by simp⟩
  | succ f =>
    have hred : only_ssi_test sf (f+1) 3 mainQuery mainKB =
        (match run mainFacts mainRules sf (f+1) (.goal mainGoal []) 0 with
         | none => none
         | some (sols, _) =>
           match sols with
           | [] => some (.cons (.cons (vTag "result6") (.cons .nil .nil)) .nil)
           | s0 :: _ =>
             match blookup s0 (Term.str "result6") with
             | some raw =>
               match rvcA (f+1) true s0 raw with
               | none => none
               | some r => some (.cons (.cons (vTag "result6") (.cons r .nil)) .nil)
             | none =>
               some (.cons (.cons (vTag "result6") (.cons .nil .nil)) .nil)) := rfl
    cases hrun : run mainFacts mainRules sf (f+1) (.goal mainGoal []) 0 with
    | none =>
      rw [hred, hrun]
      exact ⟨Or.inl rfl, by simp⟩
    | some p =>
      obtain ⟨sols, cfin⟩ := p
      obtain ⟨RES, hsols⟩ := mainRun_shape sf (f+1) sols cfin hrun
      subst hsols
      rw [hred, hrun]
      dsimp only
      have hlk : blookup [(Term.str "result6", vTag ("c_" ++ sf 0)),
          (Term.str ("c_" ++ sf 1), RES)] (Term.str "result6") =
          some (vTag ("c_" ++ sf 0)) := by
        rw [blookup, if_pos rfl]
      rw [hlk]
      dsimp only
      have hlk2 : blookup [(Term.str "result6", vTag ("c_" ++ sf 0)),
          (Term.str ("c_" ++ sf 1), RES)] (Term.str ("c_" ++ sf 0)) = none := by
        rw [blookup, if_neg, blookup, if_neg, blookup]
        · intro hh
          exact hsf (c_append_inj (Term.str.inj hh))
        · intro hh
          exact c_prefix_ne_result6 (sf 0) (Term.str.inj hh)
      have hrvc : rvcA (f+1) true [(Term.str "result6", vTag ("c_" ++ sf 0)),
          (Term.str ("c_" ++ sf 1), RES)] (vTag ("c_" ++ sf 0)) =
          some (vTag ("c_" ++ sf 0)) := by
        show (match blookup [(Term.str "result6", vTag ("c_" ++ sf 0)),
            (Term.str ("c_" ++ sf 1), RES)] (Term.str ("c_" ++ sf 0)) with
          | some v => rvcA f true [(Term.str "result6", vTag ("c_" ++ sf 0)),
              (Term.str ("c_" ++ sf 1), RES)] v
          | none => some (vTag ("c_" ++ sf 0))) = some (vTag ("c_" ++ sf 0))
        rw [hlk2]
      rw [hrvc]
      exact ⟨Or.inr rfl, fun hEq => hne_pairs _ rfl (Option.some_inj.mp hEq)⟩

/-- Witness for C1: with the concrete oracle drawing `""`, `"x"`,
`"xx"`, … (first two draws distinct), the run never produces `main`'s
`expected_result`. -/
theorem older_brother_never_expected_witness :
    only_ssi_test (fun n => String.mk (List.replicate n 'x')) 100 3 mainQuery mainKB ≠
      some expected_result :=
  (older_brother_never_expected (fun n => String.mk (List.replicate n 'x')) 100
    (by decide)).2
